import Mathlib

/-!
# Verification of the QuickScope scanner (`py_gadgets.tools.quickscope`)

Shallow embedding of the core scanner: port-set building, target expansion
and resolution, the probe scheduler, the banner prober, and the renderers.
Python functions are translated into executable Lean definitions; anything
that raises an exception is modelled with `Option`/`Except`; the
non-deterministic completion order of the probe tasks is made an explicit
parameter (a permutation of the submission-order task list); network
behaviour (connect success, banner bytes, name resolution) is supplied by
explicit oracle parameters.
-/

namespace Quickscope

/-! ## Python primitives used by the scanner

String manipulation is carried out on the underlying character lists
(`String.data`), with `String.mk` at the boundaries. -/

/-- Python `s.split(c)` on a character list: `""` splits to `[""]`,
separators at the ends produce empty groups. -/
def chSplit (c : Char) : List Char → List (List Char)
  | [] => [[]]
  | x :: xs =>
    if x = c then [] :: chSplit c xs
    else
      match chSplit c xs with
      | [] => [[x]]
      | g :: gs => (x :: g) :: gs

/-- `str.strip()`: drop leading and trailing whitespace. -/
def pyStrip (s : List Char) : List Char :=
  (((s.dropWhile Char.isWhitespace).reverse).dropWhile Char.isWhitespace).reverse

/-- `str.strip()` at the `String` boundary. -/
def pyStripStr (s : String) : String := ⟨pyStrip s.data⟩

/-- `str.lower()` (ASCII case folding suffices for the alias check). -/
def pyLower (s : String) : String := ⟨s.data.map Char.toLower⟩

/-- Value of a run of decimal digits. -/
def digitsVal (l : List Char) : Nat :=
  l.foldl (fun n c => n * 10 + (c.toNat - 48)) 0

/-- A non-empty all-digit run, or `none`. -/
def decDigits? (l : List Char) : Option Nat :=
  if l ≠ [] ∧ l.all Char.isDigit then some (digitsVal l) else none

/-- Python `int(s)` on a character list: surrounding whitespace is
stripped, an optional single sign is accepted, then a non-empty run of
decimal digits; anything else raises `ValueError` (modelled as `none`). -/
def pyIntChars (s : List Char) : Option Int :=
  match pyStrip s with
  | '-' :: ds => (decDigits? ds).map (fun n => -(n : Int))
  | '+' :: ds => (decDigits? ds).map (fun n => (n : Int))
  | ds => (decDigits? ds).map (fun n => (n : Int))

/-- Python `part.split("-", 1)`: split at the first hyphen only. -/
def splitOnce (part : List Char) : List Char × List Char :=
  (part.takeWhile (fun c => c ≠ '-'), (part.dropWhile (fun c => c ≠ '-')).drop 1)

/-- Python `range(a, b + 1)` as an integer list. -/
def intRange (a b : Int) : List Int :=
  (List.range (b + 1 - a).toNat).map (fun i => a + i)

/-- Order-preserving de-duplication loop used throughout the scanner
(`seen = set(); out = []; for x in l: if x not in seen: ...`): the `seen`
set always holds exactly the elements of the output accumulator. -/
def dedupFirstSeen {α : Type} [DecidableEq α] (l : List α) : List α :=
  l.foldl (fun acc x => if x ∈ acc then acc else acc ++ [x]) []

/-- Recursive specification of first-seen de-duplication: keep each first
occurrence and drop every later duplicate. -/
def keepFirsts {α : Type} [DecidableEq α] : List α → List α
  | [] => []
  | x :: xs => x :: keepFirsts (xs.filter (fun y => y ≠ x))
termination_by l => l.length
decreasing_by
  simpa using Nat.lt_succ_of_le (List.length_filter_le _ xs)

/-! ## Port Set Builder (`parse_ports`, `parse_exclude`) -/

/-- The fixed `COMMON_PORTS` table (quickscope.py line 7). -/
def COMMON_PORTS : List Int :=
  [21,22,23,25,53,80,110,123,135,139,143,161,389,443,445,465,514,587,631,636,8080,8443,25565]

/-- One comma-separated segment of a port specification: either a single
integer or a `low-high` range, swapped when `low > high` (lines 16-22).
Returns the integers the segment contributes to the `out` set. -/
def parsePart (part : List Char) : Option (List Int) :=
  if part.contains '-' then do
    let a ← pyIntChars (splitOnce part).1
    let b ← pyIntChars (splitOnce part).2
    let (a, b) := if a > b then (b, a) else (a, b)
    pure (intRange a b)
  else do
    let n ← pyIntChars part
    pure [n]

/-- `parse_ports` (lines 10-23): the alias `"common"` maps to the fixed
table; otherwise the string is split on commas, blank segments are
skipped, each segment contributes its integers to a set, and the set's
members within [1, 65535] are returned in ascending order.  The Python
`set` is modelled by de-duplicating the contributions and sorting; `none`
models a raised `ValueError`. -/
def parse_ports (s : String) : Option (List Int) :=
  if pyLower s = "common" then some COMMON_PORTS
  else do
    let parts := ((chSplit ',' s.data).map pyStrip).filter (fun p => p ≠ [])
    let sets ← parts.mapM parsePart
    let out := sets.flatten
    pure (List.insertionSort (· ≤ ·)
      (dedupFirstSeen (out.filter (fun p => 1 ≤ p ∧ p ≤ 65535))))

/-- `parse_exclude` (lines 26-27): the exclusion string is parsed with
`parse_ports` and turned into a set; absence means the empty set. -/
def parse_exclude (s : Option String) : Option (Finset Int) :=
  match s with
  | none => some ∅
  | some s => if s = "" then some ∅ else (parse_ports s).map List.toFinset

/-! ## Target Resolver (`expand_targets`, `resolve_target`, `materialize_ips`)

The scanner defers literal/network parsing to the `ipaddress` standard
library; its grammar is embedded below.  IPv4 literals and IPv4 networks
are modelled in full.  For IPv6 only literal *validation* is embedded
(needed by the `ip_address` success test); IPv6 network enumeration is
modelled as a parse failure, since no theorem below exercises an IPv6
CIDR token and its host enumeration is never forced. -/

/-- One dotted-quad octet: decimal digits only, at most three of them, no
leading zero, value at most 255. -/
def parseOctet (s : List Char) : Option Nat :=
  if s ≠ [] ∧ s.length ≤ 3 ∧ s.all Char.isDigit ∧ (s = ['0'] ∨ s.head? ≠ some '0') then
    if digitsVal s ≤ 255 then some (digitsVal s) else none
  else none

/-- `ipaddress.IPv4Address` parsing: exactly four octets, returned as the
32-bit value. -/
def parseIPv4Chars (s : List Char) : Option Nat :=
  match (chSplit '.' s).mapM parseOctet with
  | some [a, b, c, d] => some (((a * 256 + b) * 256 + c) * 256 + d)
  | _ => none

/-- `ipaddress.IPv4Address` parsing at the `String` boundary. -/
def parseIPv4 (s : String) : Option Nat := parseIPv4Chars s.data

/-- A hextet of an IPv6 literal: one to four hexadecimal digits. -/
def isHextet (s : List Char) : Bool :=
  !s.isEmpty && s.length ≤ 4 &&
    s.all (fun c => c.isDigit || ('a' ≤ c && c ≤ 'f') || ('A' ≤ c && c ≤ 'F'))

/-- Colon-separated parts of an IPv6 literal, with a trailing embedded
IPv4 dotted quad replaced by two hextets, as `ipaddress` does. -/
def ipv6Hextets (s : List Char) : Option (List (List Char)) :=
  let parts := chSplit ':' s
  match parts.getLast? with
  | none => none
  | some last =>
    if last.contains '.' then
      (parseIPv4Chars last).map (fun _ => parts.dropLast ++ [['0'], ['0']])
    else some parts

/-- Validity of the hextet list of an IPv6 literal: at most one `::` gap
(an empty part strictly inside the list, or a leading/trailing lone colon
doubled into the gap), eight hextets exactly when there is no gap, fewer
than eight when there is one. -/
def isIPv6Parts (parts : List (List Char)) : Bool :=
  let n := parts.length
  if n < 3 then false else
  let mid := (parts.drop 1).dropLast
  let empties := mid.countP (fun p => p.isEmpty)
  if empties == 0 then
    n == 8 && parts.all isHextet
  else if empties == 1 then
    match mid.findIdx? (fun p => p.isEmpty) with
    | none => false
    | some j =>
      let k := j + 1
      let firstEmpty := parts.head? == some []
      let lastEmpty := parts.getLast? == some []
      (if firstEmpty then k == 1 else true) &&
      (if lastEmpty then k == n - 2 else true) &&
      (let hi := if firstEmpty then 0 else k
       let lo := if lastEmpty then 0 else n - k - 1
       hi + lo ≤ 7 && (parts.take hi ++ parts.drop (n - lo)).all isHextet)
  else false

/-- `ipaddress.IPv6Address` validity, scope id (`%zone`) included. -/
def isIPv6 (s : String) : Bool :=
  match chSplit '%' s.data with
  | [addr] =>
    match ipv6Hextets addr with
    | some parts => isIPv6Parts parts
    | none => false
  | [addr, scope] =>
    !scope.isEmpty &&
      (match ipv6Hextets addr with
       | some parts => isIPv6Parts parts
       | none => false)
  | _ => false

/-- `ipaddress.ip_address(t)` succeeds: the token is an IP literal. -/
def is_ip (t : String) : Bool := (parseIPv4 t).isSome || isIPv6 t

/-- `ipaddress.ip_network(t, strict=False)` for an IPv4 CIDR token:
address part and a decimal prefix length at most 32; host bits are masked
off.  Returns the network's 32-bit value and the prefix length. -/
def parse_network (t : String) : Option (Nat × Nat) :=
  match chSplit '/' t.data with
  | [a, m] => do
      let addr ← parseIPv4Chars a
      let p ← decDigits? m
      if p ≤ 32 then
        pure (addr - addr % 2 ^ (32 - p), p)
      else none
  | _ => none

/-- Decimal rendering of a 32-bit value as a dotted quad (`str(ip)`). -/
def ipv4ToString (n : Nat) : String :=
  toString (n / 16777216 % 256) ++ "." ++ toString (n / 65536 % 256) ++ "." ++
    toString (n / 256 % 256) ++ "." ++ toString (n % 256)

/-- `net.hosts()` for IPv4: usable addresses between network and broadcast
for prefixes up to /30; both addresses of a /31; the single address of a
/32. -/
def hostsV4 (net : Nat) (plen : Nat) : List Nat :=
  if plen ≤ 30 then (List.range (2 ^ (32 - plen) - 2)).map (fun i => net + 1 + i)
  else if plen = 31 then [net, net + 1]
  else [net]

/-- One token of `expand_targets` (lines 52-59): after stripping, a blank
token contributes nothing, a token containing `/` is expanded to its
network's host addresses, and any other token is passed through
unchanged.  `none` models the `ValueError` raised by `ip_network`. -/
def expandToken (t : String) : Option (List String) :=
  let t := pyStripStr t
  if t = "" then some []
  else if t.data.contains '/' then
    (parse_network t).map (fun np => (hostsV4 np.1 np.2).map ipv4ToString)
  else some [t]

/-- The sequential loop of `expand_targets`: per-token expansions in
order, the first `ValueError` aborting the run. -/
def expandLists : List String → Option (List (List String))
  | [] => some []
  | t :: rest => do
    let l ← expandToken t
    let ls ← expandLists rest
    pure (l :: ls)

/-- `expand_targets` (lines 50-64): expand every token, then de-duplicate
the combined token list preserving first-seen order. -/
def expand_targets (targets : List String) : Option (List String) :=
  (expandLists targets).map (fun lists => dedupFirstSeen lists.flatten)

deriving instance DecidableEq for Except

/-- A name-resolution oracle: `getaddrinfo`'s IPv4/IPv6 addresses for a
hostname (in returned order), or `.error ()` for a raised `gaierror`. -/
def Resolver : Type := String → Except Unit (List String)

/-- `resolve_target` (lines 30-47): an IP literal resolves to itself;
otherwise the resolver's addresses are de-duplicated preserving order.
A resolver failure propagates — there is no handler. -/
def resolve_target (resolver : Resolver) (t : String) : Except Unit (List String) :=
  if is_ip t then .ok [t]
  else (resolver t).map dedupFirstSeen

/-- One iteration of the `materialize_ips` loop (lines 118-124): an IP
literal passes through, anything else goes to `resolve_target`. -/
def materializeToken (resolver : Resolver) (tok : String) : Except Unit (List String) :=
  if is_ip tok then .ok [tok] else resolve_target resolver tok

/-- The sequential loop of `materialize_ips`: per-token address lists in
order; there is no `try`/`except`, so the first resolver failure aborts
the whole batch. -/
def materializeLists (resolver : Resolver) : List String → Except Unit (List (List String))
  | [] => .ok []
  | tok :: rest => do
    let l ← materializeToken resolver tok
    let ls ← materializeLists resolver rest
    pure (l :: ls)

/-- `materialize_ips` (lines 116-128): resolve every token, then
de-duplicate the combined address list preserving first-seen order.  A
resolution failure on any hostname token propagates out of the whole
batch. -/
def materialize_ips (resolver : Resolver) (toks : List String) :
    Except Unit (List String) :=
  (materializeLists resolver toks).map (fun lists => dedupFirstSeen lists.flatten)

/-! ## Probe Scheduler (`run_scan`)

The probe outcome for a given (host, port) pair is supplied by an oracle
`probeFn` returning `(ok, banner)` as `probe` does.  Task *submission*
order is host-major/port-minor; *completion* order is non-deterministic,
so the collection fold runs over an explicit `order` parameter that the
theorems constrain to a permutation of the submitted task list. -/

/-- A per-result record `{"port": .., "state": .., "banner": ..}`. -/
structure Entry where
  port : Int
  state : String
  banner : String
deriving DecidableEq, Repr

/-- The dictionary appended for a completed probe (line 97): state is
`"open"` on success and `"closed"` otherwise; the banner is kept only on
success. -/
def entryFor (probeFn : String → Int → Bool × String) (ip : String) (p : Int) : Entry :=
  { port := p
    state := if (probeFn ip p).1 then "open" else "closed"
    banner := if (probeFn ip p).1 then (probeFn ip p).2 else "" }

/-- `results[ip].append(e)` on the per-host dictionary. -/
def appendEntry (st : List (String × List Entry)) (ip : String) (e : Entry) :
    List (String × List Entry) :=
  st.map (fun kv => if kv.1 = ip then (kv.1, kv.2 ++ [e]) else kv)

/-- Completion of one task (lines 92-98): the entry is appended only when
the probe succeeded or closed ports are being shown. -/
def scanStep (probeFn : String → Int → Bool × String) (open_only : Bool)
    (st : List (String × List Entry)) (t : String × Int) : List (String × List Entry) :=
  if (probeFn t.1 t.2).1 || !open_only then appendEntry st t.1 (entryFor probeFn t.1 t.2)
  else st

/-- `results = {ip: [] for ip in ips}` (line 86): one empty list per
distinct host, in first-seen order. -/
def initResults (ips : List String) : List (String × List Entry) :=
  (dedupFirstSeen ips).map (fun ip => (ip, []))

/-- The working port list after exclusion (line 88). -/
def run_scan_ports (ports : List Int) (exclude : Finset Int) : List Int :=
  ports.filter (fun p => p ∉ exclude)

/-- The submitted task list (line 104): host-major, port-minor over the
working port list. -/
def run_scan_tasks (ips : List String) (ports : List Int) (exclude : Finset Int) :
    List (String × Int) :=
  ips.flatMap (fun ip => (run_scan_ports ports exclude).map (fun p => (ip, p)))

/-- The collection fold: tasks complete in `order`, each appending (or
not) its entry. -/
def run_scan_collect (probeFn : String → Int → Bool × String) (open_only : Bool)
    (ips : List String) (order : List (String × Int)) : List (String × List Entry) :=
  order.foldl (scanStep probeFn open_only) (initResults ips)

set_option linter.unusedVariables false in
/-- `run_scan` (lines 83-113): collect all completed probes, then keep a
host only when its list is non-empty and, in open-only mode, contains an
open entry (line 113).  The `ports`/`exclude` arguments determine the
submitted task list; the theorems below constrain `order` to be a
permutation of `run_scan_tasks ips ports exclude`. -/
def run_scan (probeFn : String → Int → Bool × String) (ips : List String)
    (ports : List Int) (open_only : Bool) (exclude : Finset Int)
    (order : List (String × Int)) : List (String × List Entry) :=
  (run_scan_collect probeFn open_only ips order).filter
    (fun kv => !kv.2.isEmpty && (!open_only || kv.2.any (fun e => e.state == "open")))

/-! ## Result renderers -/

/-- The sort key relation of `sorted(entries, key=lambda e: e["port"])`. -/
def portLE (a b : Entry) : Prop := a.port ≤ b.port

instance : DecidableRel portLE := fun a b => Int.decLe a.port b.port

instance : IsTotal Entry portLE := ⟨fun a b => Int.le_total a.port b.port⟩

instance : IsTrans Entry portLE := ⟨fun _ _ _ h h' => Int.le_trans h h'⟩

/-- `sorted(entries, key=lambda e: e["port"])`: a stable sort by port. -/
def pySortByPort (l : List Entry) : List Entry := List.insertionSort portLE l

/-- `print_pretty` (lines 131-146), abstracted to the blocks it prints:
per retained host, the header and the entry lines in printed order.  Each
host's entries are sorted by port; in open-only mode closed entries are
dropped and a host left with no lines is skipped. -/
def print_pretty (results : List (String × List Entry)) (open_only : Bool) :
    List (String × List Entry) :=
  results.filterMap (fun kv =>
    let entries := pySortByPort kv.2
    if open_only then
      let entries := entries.filter (fun e => e.state == "open")
      if entries.isEmpty then none else some (kv.1, entries)
    else some (kv.1, entries))

/-- The row sequence `print_csv` (lines 149-156) emits for one host:
sorted by port, closed rows skipped in open-only mode. -/
def csvHostRows (open_only : Bool) (kv : String × List Entry) : List (String × Entry) :=
  ((pySortByPort kv.2).filter (fun e => !(open_only && e.state != "open"))).map
    (fun e => (kv.1, e))

/-- All rows of the CSV rendering, in emission order. -/
def print_csv (results : List (String × List Entry)) (open_only : Bool) :
    List (String × Entry) :=
  results.flatMap (csvHostRows open_only)

/-- The row sequence `print_ndjson` (lines 159-164) emits for one host:
the same sort-and-filter loop as the CSV renderer. -/
def ndjsonHostRows (open_only : Bool) (kv : String × List Entry) : List (String × Entry) :=
  ((pySortByPort kv.2).filter (fun e => !(open_only && e.state != "open"))).map
    (fun e => (kv.1, e))

/-- All rows of the NDJSON rendering, in emission order. -/
def print_ndjson (results : List (String × List Entry)) (open_only : Bool) :
    List (String × Entry) :=
  results.flatMap (ndjsonHostRows open_only)

/-- The key order of `json.dumps(results, sort_keys=True)`. -/
def keyLE (a b : String × List Entry) : Prop := a.1 ≤ b.1

instance : DecidableRel keyLE := fun a b => inferInstanceAs (Decidable (a.1 ≤ b.1))

/-- `json.dumps(results, indent=2, sort_keys=True)` (line 216), abstracted
to the structure it serializes: hosts in sorted key order, each host's
entry list exactly as stored in the report — no per-host sort and no
open-only filter are applied on this path. -/
def jsonRender (results : List (String × List Entry)) : List (String × List Entry) :=
  List.insertionSort keyLE results

/-! ## `main` (lines 185-223) -/

/-- Outcome of a run of `main`: a process exit code (with the scan report
when one was produced), or an uncaught exception escaping `main` — the
second `try` block catches `KeyboardInterrupt` only. -/
inductive MainResult
  | exited (code : Nat) (report : Option (List (String × List Entry)))
  | uncaught
deriving DecidableEq, Repr

/-- `main` (lines 185-223) up to rendering: parse targets, ports and
exclusions (any parse failure exits 2; an empty parsed port list exits 2
*before* exclusion is applied), resolve the hosts (a resolver error
escapes uncaught; an empty host list exits 2), then scan and exit 0 with
the report. -/
def main (targets : List String) (portsSpec : String) (excludeSpec : Option String)
    (resolver : Resolver) (probeFn : String → Int → Bool × String)
    (open_only : Bool) (order : List (String × Int)) : MainResult :=
  match expand_targets targets, parse_ports portsSpec with
  | some tokens, some ports =>
    if ports = [] then .exited 2 none
    else
      match parse_exclude excludeSpec with
      | none => .exited 2 none
      | some exclude =>
        match materialize_ips resolver tokens with
        | .error _ => .uncaught
        | .ok ips =>
          if ips = [] then .exited 2 none
          else .exited 0 (some (run_scan probeFn ips ports open_only exclude order))
  | _, _ => .exited 2 none

/-! ## Banner Prober (`probe`, lines 67-80)

The network side of a single probe is an explicit environment: whether the
connection completes within the connect timeout, whether the CRLF write
succeeds, when the peer's banner bytes become available, and which bytes
they are.  Timeouts are rationals (the values compared are exact).  The
decode step models `data.decode(errors="ignore")` on the ASCII plane:
decodable bytes map to their characters, undecodable ones are dropped
rather than failing. -/

structure ProbeEnv where
  /-- `asyncio.open_connection` completes within the connect timeout. -/
  connectOk : Bool
  /-- `writer.write(b"\r\n"); await writer.drain()` does not raise. -/
  writeOk : Bool
  /-- Time at which the peer's response bytes become readable. -/
  readyAt : ℚ
  /-- The bytes the peer sends; `reader.read(128)` takes at most 128. -/
  stream : List Nat

/-- `bytes.decode(errors="ignore")`: keep decodable bytes, drop the
rest. -/
def decodeIgnore (bytes : List Nat) : List Char :=
  bytes.filterMap (fun b => if b < 128 then some (Char.ofNat b) else none)

/-- The banner read (line 74): under the sub-timeout `min(0.6, timeout)`,
`read(128)` returns at most 128 bytes of the peer's stream; a write
failure or a read past the sub-timeout raises (modelled as `none`), which
line 72's `suppress(Exception)` swallows. -/
def bannerRead (env : ProbeEnv) (timeout : ℚ) : Option (List Nat) :=
  if env.writeOk then
    if env.readyAt ≤ min (6/10 : ℚ) timeout then some (env.stream.take 128) else none
  else none

/-- `probe` (lines 67-80): a failed connection yields `(False, "")`; on
success the banner is captured only when enabled and every step of the
banner sequence succeeds, and any banner failure leaves the empty banner
with the state still open. -/
def probe (env : ProbeEnv) (timeout : ℚ) (do_banner : Bool) : Bool × String :=
  if env.connectOk then
    (true,
      if do_banner then
        match bannerRead env timeout with
        | some bs => String.mk (pyStrip (decodeIgnore bs))
        | none => ""
      else "")
  else (false, "")

/-! ## Concurrency gate (C9)

`run_scan` wraps every probe body in `async with sem` over
`asyncio.Semaphore(max_concurrency)` (lines 85, 94).  The scheduler is
modelled as a transition system over the phases of the submitted tasks:
a task is `pending` until it acquires a permit, `active` (connection
attempt in flight) exactly while it holds one, and `finished` once it has
released it.  Acquisition blocks unless a permit is free. -/

inductive TaskPhase
  | pending
  | active
  | finished
deriving DecidableEq, Repr

/-- Scheduler state: one phase per submitted task, plus the semaphore's
free-permit count. -/
structure SchedState where
  phases : List TaskPhase
  permits : Nat
deriving DecidableEq, Repr

/-- Number of simultaneously active connection attempts. -/
def activeCount (s : SchedState) : Nat :=
  s.phases.countP (fun ph => ph == TaskPhase.active)

/-- Initial state: every task pending, all `cap` permits free. -/
def initSched (numTasks cap : Nat) : SchedState :=
  ⟨List.replicate numTasks TaskPhase.pending, cap⟩

/-- Scheduler transitions: a pending task may start its connection attempt
only by taking a free permit (`async with sem` entry); an active task
finishing its probe returns its permit (`async with sem` exit). -/
inductive SchedStep : SchedState → SchedState → Prop
  | acquire (s : SchedState) (i : Nat) :
      s.phases.get? i = some TaskPhase.pending → 0 < s.permits →
      SchedStep s ⟨s.phases.set i TaskPhase.active, s.permits - 1⟩
  | release (s : SchedState) (i : Nat) :
      s.phases.get? i = some TaskPhase.active →
      SchedStep s ⟨s.phases.set i TaskPhase.finished, s.permits + 1⟩

/-- States reachable during a scan with `numTasks` tasks and gate
capacity `cap`. -/
inductive SchedReachable (numTasks cap : Nat) : SchedState → Prop
  | init : SchedReachable numTasks cap (initSched numTasks cap)
  | step {s s' : SchedState} :
      SchedReachable numTasks cap s → SchedStep s s' → SchedReachable numTasks cap s'

/-! ## Properties of first-seen de-duplication -/

lemma keepFirsts_cons {α : Type} [DecidableEq α] (x : α) (xs : List α) :
    keepFirsts (x :: xs) = x :: keepFirsts (xs.filter (fun y => y ≠ x)) := by
  rw [keepFirsts]

lemma keepFirsts_sublist {α : Type} [DecidableEq α] (l : List α) :
    List.Sublist (keepFirsts l) l := by
  induction l using keepFirsts.induct with
  | case1 => simp [keepFirsts]
  | case2 x xs ih =>
    rw [keepFirsts_cons]
    exact (ih.trans (List.filter_sublist xs)).cons₂ x

lemma mem_keepFirsts {α : Type} [DecidableEq α] {a : α} {l : List α} :
    a ∈ keepFirsts l ↔ a ∈ l := by
  constructor
  · exact fun h => (keepFirsts_sublist l).subset h
  · intro h
    induction l using keepFirsts.induct with
    | case1 => cases h
    | case2 x xs ih =>
      rw [keepFirsts_cons]
      rcases List.mem_cons.1 h with h | h
      · exact h ▸ List.mem_cons_self _ _
      · by_cases hax : a = x
        · exact hax ▸ List.mem_cons_self _ _
        · exact List.mem_cons_of_mem _ (ih (List.mem_filter.2 ⟨h, by simpa using hax⟩))

lemma keepFirsts_nodup {α : Type} [DecidableEq α] (l : List α) :
    (keepFirsts l).Nodup := by
  induction l using keepFirsts.induct with
  | case1 => simp [keepFirsts]
  | case2 x xs ih =>
    rw [keepFirsts_cons]
    refine List.nodup_cons.2 ⟨fun hx => ?_, ih⟩
    have := List.mem_filter.1 (mem_keepFirsts.1 hx)
    simp at this

lemma dedupFirstSeen_go {α : Type} [DecidableEq α] (l : List α) :
    ∀ acc : List α,
      l.foldl (fun acc x => if x ∈ acc then acc else acc ++ [x]) acc
        = acc ++ keepFirsts (l.filter (fun y => y ∉ acc)) := by
  induction l with
  | nil => intro acc; simp [keepFirsts]
  | cons x xs ih =>
    intro acc
    rw [List.foldl_cons, List.filter_cons]
    by_cases hx : x ∈ acc
    · rw [if_pos hx, if_neg (by simpa using hx), ih acc]
    · rw [if_neg hx, if_pos (by simpa using hx), ih (acc ++ [x]), keepFirsts_cons,
        List.filter_filter, List.append_assoc, List.singleton_append]
      have hf : List.filter (fun y => decide (y ∉ acc ++ [x])) xs
          = List.filter (fun a => decide (a ≠ x) && decide (a ∉ acc)) xs := by
        apply List.filter_congr
        intro a _
        by_cases hax : a = x <;> by_cases ha : a ∈ acc <;> simp [hax, ha]
      rw [hf]

lemma dedupFirstSeen_eq_keepFirsts {α : Type} [DecidableEq α] (l : List α) :
    dedupFirstSeen l = keepFirsts l := by
  have h := dedupFirstSeen_go l []
  simpa [dedupFirstSeen] using h

lemma dedupFirstSeen_nodup {α : Type} [DecidableEq α] (l : List α) :
    (dedupFirstSeen l).Nodup := by
  rw [dedupFirstSeen_eq_keepFirsts]; exact keepFirsts_nodup l

lemma mem_dedupFirstSeen {α : Type} [DecidableEq α] {a : α} {l : List α} :
    a ∈ dedupFirstSeen l ↔ a ∈ l := by
  rw [dedupFirstSeen_eq_keepFirsts]; exact mem_keepFirsts

lemma dedupFirstSeen_sublist {α : Type} [DecidableEq α] (l : List α) :
    List.Sublist (dedupFirstSeen l) l := by
  rw [dedupFirstSeen_eq_keepFirsts]; exact keepFirsts_sublist l

/-! ## Properties of the collection fold -/

/-- `st` holds entry `e` under host `ip`. -/
def HasEntry (st : List (String × List Entry)) (ip : String) (e : Entry) : Prop :=
  ∃ kv ∈ st, kv.1 = ip ∧ e ∈ kv.2

/-- `st` has a slot for host `ip`. -/
def HasKey (st : List (String × List Entry)) (ip : String) : Prop :=
  ∃ kv ∈ st, kv.1 = ip

lemma mem_appendEntry {st : List (String × List Entry)} {ip : String} {e0 : Entry}
    {kv : String × List Entry} (h : kv ∈ appendEntry st ip e0) :
    ∃ kv0 ∈ st, kv = if kv0.1 = ip then (kv0.1, kv0.2 ++ [e0]) else kv0 := by
  rcases List.mem_map.1 h with ⟨kv0, h0, hkv⟩
  exact ⟨kv0, h0, hkv.symm⟩

/-- Every entry of the collection fold's final state comes from the
initial state or from a completed task of `order` whose append guard
held. -/
lemma collect_entry_sound (probeFn : String → Int → Bool × String) (open_only : Bool)
    (order : List (String × Int)) :
    ∀ (st : List (String × List Entry)) (kv : String × List Entry) (e : Entry),
      kv ∈ order.foldl (scanStep probeFn open_only) st → e ∈ kv.2 →
      (∃ kv0 ∈ st, kv0.1 = kv.1 ∧ e ∈ kv0.2) ∨
        ∃ t ∈ order, kv.1 = t.1 ∧ e = entryFor probeFn t.1 t.2 ∧
          ((probeFn t.1 t.2).1 = true ∨ open_only = false) := by
  induction order with
  | nil => exact fun st kv e h he => .inl ⟨kv, h, rfl, he⟩
  | cons t rest ih =>
    intro st kv e h he
    rw [List.foldl_cons] at h
    rcases ih _ kv e h he with hst | ⟨t', ht', h1, h2, h3⟩
    · rcases hst with ⟨kv0, h0, hkey, hmem⟩
      unfold scanStep at h0
      by_cases hc : ((probeFn t.1 t.2).1 || !open_only) = true
      · rw [if_pos hc] at h0
        rcases mem_appendEntry h0 with ⟨kv1, h1, heq⟩
        by_cases hk : kv1.1 = t.1
        · rw [if_pos hk] at heq
          subst heq
          rcases List.mem_append.1 hmem with hmem | hmem
          · exact .inl ⟨kv1, h1, hkey, hmem⟩
          · refine .inr ⟨t, List.mem_cons_self _ _, ?_, ?_, ?_⟩
            · exact hkey ▸ hk
            · simpa using hmem
            · rcases Bool.or_eq_true_iff.1 hc with h | h
              · exact .inl h
              · exact .inr (by simpa using h)
        · rw [if_neg hk] at heq
          exact .inl ⟨kv1, h1, heq ▸ hkey, heq ▸ hmem⟩
      · rw [if_neg hc] at h0
        exact .inl ⟨kv0, h0, hkey, hmem⟩
    · exact .inr ⟨t', List.mem_cons_of_mem _ ht', h1, h2, h3⟩

lemma hasKey_appendEntry {st : List (String × List Entry)} {ip0 : String}
    (ip : String) (e0 : Entry) (h : HasKey st ip0) : HasKey (appendEntry st ip e0) ip0 := by
  rcases h with ⟨kv, hkv, hkey⟩
  by_cases hk : kv.1 = ip
  · exact ⟨(kv.1, kv.2 ++ [e0]), List.mem_map.2 ⟨kv, hkv, by rw [if_pos hk]⟩, hkey⟩
  · exact ⟨kv, List.mem_map.2 ⟨kv, hkv, by rw [if_neg hk]⟩, hkey⟩

lemma hasEntry_appendEntry {st : List (String × List Entry)} {ip0 : String} {e : Entry}
    (ip : String) (e0 : Entry) (h : HasEntry st ip0 e) :
    HasEntry (appendEntry st ip e0) ip0 e := by
  rcases h with ⟨kv, hkv, hkey, hmem⟩
  by_cases hk : kv.1 = ip
  · exact ⟨(kv.1, kv.2 ++ [e0]), List.mem_map.2 ⟨kv, hkv, by rw [if_pos hk]⟩, hkey,
      List.mem_append_left _ hmem⟩
  · exact ⟨kv, List.mem_map.2 ⟨kv, hkv, by rw [if_neg hk]⟩, hkey, hmem⟩

lemma hasKey_scanStep (probeFn : String → Int → Bool × String) (open_only : Bool)
    {st : List (String × List Entry)} {ip0 : String} (t : String × Int)
    (h : HasKey st ip0) : HasKey (scanStep probeFn open_only st t) ip0 := by
  unfold scanStep
  by_cases hc : ((probeFn t.1 t.2).1 || !open_only) = true
  · rw [if_pos hc]; exact hasKey_appendEntry _ _ h
  · rw [if_neg hc]; exact h

lemma hasEntry_scanStep (probeFn : String → Int → Bool × String) (open_only : Bool)
    {st : List (String × List Entry)} {ip0 : String} {e : Entry} (t : String × Int)
    (h : HasEntry st ip0 e) : HasEntry (scanStep probeFn open_only st t) ip0 e := by
  unfold scanStep
  by_cases hc : ((probeFn t.1 t.2).1 || !open_only) = true
  · rw [if_pos hc]; exact hasEntry_appendEntry _ _ h
  · rw [if_neg hc]; exact h

lemma hasKey_foldl (probeFn : String → Int → Bool × String) (open_only : Bool)
    (order : List (String × Int)) :
    ∀ {st : List (String × List Entry)} {ip0 : String}, HasKey st ip0 →
      HasKey (order.foldl (scanStep probeFn open_only) st) ip0 := by
  induction order with
  | nil => exact fun h => h
  | cons t rest ih =>
    intro st ip0 h
    rw [List.foldl_cons]
    exact ih (hasKey_scanStep probeFn open_only t h)

lemma hasEntry_foldl (probeFn : String → Int → Bool × String) (open_only : Bool)
    (order : List (String × Int)) :
    ∀ {st : List (String × List Entry)} {ip0 : String} {e : Entry}, HasEntry st ip0 e →
      HasEntry (order.foldl (scanStep probeFn open_only) st) ip0 e := by
  induction order with
  | nil => exact fun h => h
  | cons t rest ih =>
    intro st ip0 e h
    rw [List.foldl_cons]
    exact ih (hasEntry_scanStep probeFn open_only t h)

lemma scanStep_adds (probeFn : String → Int → Bool × String) (open_only : Bool)
    {st : List (String × List Entry)} {t : String × Int} (hkey : HasKey st t.1)
    (hcond : (probeFn t.1 t.2).1 = true ∨ open_only = false) :
    HasEntry (scanStep probeFn open_only st t) t.1 (entryFor probeFn t.1 t.2) := by
  unfold scanStep
  have hc : ((probeFn t.1 t.2).1 || !open_only) = true := by
    rcases hcond with h | h <;> simp [h]
  rw [if_pos hc]
  rcases hkey with ⟨kv, hkv, hkey⟩
  exact ⟨(kv.1, kv.2 ++ [entryFor probeFn t.1 t.2]),
    List.mem_map.2 ⟨kv, hkv, by rw [if_pos hkey]⟩, hkey,
    List.mem_append_right _ (List.mem_singleton.2 rfl)⟩

/-- Every completed task of `order` whose append guard held contributes
its entry to the collected state: results are only ever appended, never
removed. -/
lemma collect_entry_complete (probeFn : String → Int → Bool × String) (open_only : Bool)
    (ips : List String) (order : List (String × Int)) (t : String × Int)
    (ht : t ∈ order) (hkey : t.1 ∈ ips)
    (hcond : (probeFn t.1 t.2).1 = true ∨ open_only = false) :
    HasEntry (run_scan_collect probeFn open_only ips order) t.1
      (entryFor probeFn t.1 t.2) := by
  rcases List.append_of_mem ht with ⟨l1, l2, rfl⟩
  unfold run_scan_collect
  rw [List.foldl_append, List.foldl_cons]
  have hkey0 : HasKey (initResults ips) t.1 :=
    ⟨(t.1, []), List.mem_map.2 ⟨t.1, mem_dedupFirstSeen.2 hkey, rfl⟩, rfl⟩
  exact hasEntry_foldl probeFn open_only l2
    (scanStep_adds probeFn open_only
      (hasKey_foldl probeFn open_only l1 hkey0) hcond)

lemma run_scan_mem_collect {probeFn : String → Int → Bool × String} {ips : List String}
    {ports : List Int} {open_only : Bool} {exclude : Finset Int}
    {order : List (String × Int)} {kv : String × List Entry}
    (h : kv ∈ run_scan probeFn ips ports open_only exclude order) :
    kv ∈ run_scan_collect probeFn open_only ips order :=
  (List.mem_filter.1 h).1

/-- Every entry of the scan report comes from a completed task whose
append guard held. -/
lemma run_scan_entry_sound {probeFn : String → Int → Bool × String} {ips : List String}
    {ports : List Int} {open_only : Bool} {exclude : Finset Int}
    {order : List (String × Int)} {kv : String × List Entry} {e : Entry}
    (h : kv ∈ run_scan probeFn ips ports open_only exclude order) (he : e ∈ kv.2) :
    ∃ t ∈ order, kv.1 = t.1 ∧ e = entryFor probeFn t.1 t.2 ∧
      ((probeFn t.1 t.2).1 = true ∨ open_only = false) := by
  have h1 := collect_entry_sound probeFn open_only order (initResults ips) kv e
    (run_scan_mem_collect h) he
  rcases h1 with ⟨kv0, h0, _, hmem⟩ | h1
  · rcases List.mem_map.1 h0 with ⟨ip, _, hkv0⟩
    rw [← hkv0] at hmem
    cases hmem
  · exact h1

lemma mem_run_scan_tasks {ips : List String} {ports : List Int} {exclude : Finset Int}
    {t : String × Int} (h : t ∈ run_scan_tasks ips ports exclude) :
    t.1 ∈ ips ∧ t.2 ∈ run_scan_ports ports exclude := by
  rcases List.mem_flatMap.1 h with ⟨ip, hip, hmem⟩
  rcases List.mem_map.1 hmem with ⟨p, hp, ht⟩
  rw [← ht]
  exact ⟨hip, hp⟩

lemma run_scan_ports_length (ports : List Int) (exclude : Finset Int) (hnd : ports.Nodup) :
    (run_scan_ports ports exclude).length = (ports.toFinset \ exclude).card := by
  have h1 : (run_scan_ports ports exclude).toFinset = ports.toFinset \ exclude := by
    rw [Finset.sdiff_eq_filter]
    unfold run_scan_ports
    rw [List.toFinset_filter]
    apply Finset.filter_congr
    intro x _
    simp
  rw [← h1]
  exact (List.toFinset_card_of_nodup (List.Nodup.filter _ hnd)).symm

lemma run_scan_tasks_length (ips : List String) (ports : List Int) (exclude : Finset Int) :
    (run_scan_tasks ips ports exclude).length =
      ips.length * (run_scan_ports ports exclude).length := by
  unfold run_scan_tasks
  rw [List.length_flatMap]
  induction ips with
  | nil => simp
  | cons ip rest ih => simp [ih, Nat.succ_mul, Nat.add_comm]

/-! ## Claim theorems about the scheduler -/

/-- C1: for every resolved host list `H`, duplicate-free port list `P`
and exclusion set `E`, `run_scan` creates exactly `|H| * |P \ E|` probe
tasks — one per (host, port) pair with the port not excluded — and for
any completion order of those tasks no excluded port appears in the
report it returns. -/
theorem C1_task_count_and_exclusion
    (probeFn : String → Int → Bool × String) (ips : List String) (ports : List Int)
    (exclude : Finset Int) (open_only : Bool) (order : List (String × Int))
    (hnd : ports.Nodup) (hord : order.Perm (run_scan_tasks ips ports exclude)) :
    (run_scan_tasks ips ports exclude).length
        = ips.length * (ports.toFinset \ exclude).card
      ∧ ∀ kv ∈ run_scan probeFn ips ports open_only exclude order,
          ∀ e ∈ kv.2, e.port ∉ exclude := by
  constructor
  · rw [run_scan_tasks_length, run_scan_ports_length ports exclude hnd]
  · intro kv hkv e he
    rcases run_scan_entry_sound hkv he with ⟨t, ht, _, hent, _⟩
    have htasks : t ∈ run_scan_tasks ips ports exclude := hord.mem_iff.1 ht
    have hport : t.2 ∈ run_scan_ports ports exclude := (mem_run_scan_tasks htasks).2
    have : e.port = t.2 := by rw [hent]; rfl
    rw [this]
    have := (List.mem_filter.1 hport).2
    simpa using this

/-- Witness for C1 at a concrete scan: two hosts, ports 22,80,443 with
443 excluded. -/
theorem C1_task_count_and_exclusion_witness :
    ([(22 : Int), 80, 443].Nodup ∧
      (run_scan_tasks ["h1", "h2"] [22, 80, 443] {443}).Perm
        (run_scan_tasks ["h1", "h2"] [22, 80, 443] {443}))
    ∧ ((run_scan_tasks ["h1", "h2"] [22, 80, 443] {443}).length
        = ["h1", "h2"].length * (([(22 : Int), 80, 443]).toFinset \ {443}).card
      ∧ ∀ kv ∈ run_scan (fun _ p => (p == 22, "")) ["h1", "h2"] [22, 80, 443] true {443}
            (run_scan_tasks ["h1", "h2"] [22, 80, 443] {443}),
          ∀ e ∈ kv.2, e.port ∉ ({443} : Finset Int)) :=
  ⟨⟨by decide, List.Perm.refl _⟩,
    C1_task_count_and_exclusion (fun _ p => (p == 22, "")) ["h1", "h2"] [22, 80, 443]
      {443} true _ (by decide) (List.Perm.refl _)⟩

/-- In open-only mode the collection fold only ever holds open entries. -/
lemma collect_open_only (probeFn : String → Int → Bool × String) (ips : List String)
    (order : List (String × Int)) :
    ∀ kv ∈ run_scan_collect probeFn true ips order, ∀ e ∈ kv.2, e.state = "open" := by
  intro kv hkv e he
  rcases collect_entry_sound probeFn true order (initResults ips) kv e hkv he with
    ⟨kv0, h0, _, hmem⟩ | ⟨t, _, _, hent, hcond⟩
  · rcases List.mem_map.1 h0 with ⟨ip, _, hkv0⟩
    rw [← hkv0] at hmem
    cases hmem
  · rcases hcond with hok | hfalse
    · rw [hent]
      simp [entryFor, hok]
    · cases hfalse

/-- C5: in open-only mode (the default) a host appears in the report only
with at least one open result and only open entries are retained for it;
in "show all" mode every probed (host, port) task's result is retained in
the report. -/
theorem C5_open_only_retention
    (probeFn : String → Int → Bool × String) (ips : List String) (ports : List Int)
    (exclude : Finset Int) (order : List (String × Int))
    (hord : order.Perm (run_scan_tasks ips ports exclude)) :
    (∀ kv ∈ run_scan probeFn ips ports true exclude order,
        (∀ e ∈ kv.2, e.state = "open") ∧ ∃ e ∈ kv.2, e.state = "open")
    ∧ ∀ t ∈ run_scan_tasks ips ports exclude,
        ∃ kv ∈ run_scan probeFn ips ports false exclude order,
          kv.1 = t.1 ∧ entryFor probeFn t.1 t.2 ∈ kv.2 := by
  constructor
  · intro kv hkv
    constructor
    · exact collect_open_only probeFn ips order kv (run_scan_mem_collect hkv)
    · have h2 := (List.mem_filter.1 hkv).2
      simp only [Bool.and_eq_true, Bool.or_eq_true, List.any_eq_true] at h2
      rcases h2.2 with h2 | ⟨e, he, hst⟩
      · cases h2
      · exact ⟨e, he, by simpa using hst⟩
  · intro t ht
    have horder : t ∈ order := hord.mem_iff.2 ht
    have hkey : t.1 ∈ ips := (mem_run_scan_tasks ht).1
    rcases collect_entry_complete probeFn false ips order t horder hkey (.inr rfl) with
      ⟨kv, hkv, hkey1, hmem⟩
    refine ⟨kv, List.mem_filter.2 ⟨hkv, ?_⟩, hkey1, hmem⟩
    have : kv.2 ≠ [] := fun h => by rw [h] at hmem; cases hmem
    simp [this]

/-- Witness for C5 at a concrete scan: one host, ports 22 and 80, port 22
open, submission order as completion order. -/
theorem C5_open_only_retention_witness :
    ((run_scan_tasks ["h"] [22, 80] ∅).Perm (run_scan_tasks ["h"] [22, 80] ∅))
    ∧ ((∀ kv ∈ run_scan (fun _ p => (p == 22, "")) ["h"] [22, 80] true ∅
            (run_scan_tasks ["h"] [22, 80] ∅),
          (∀ e ∈ kv.2, e.state = "open") ∧ ∃ e ∈ kv.2, e.state = "open")
      ∧ ∀ t ∈ run_scan_tasks ["h"] [22, 80] ∅,
          ∃ kv ∈ run_scan (fun _ p => (p == 22, "")) ["h"] [22, 80] false ∅
              (run_scan_tasks ["h"] [22, 80] ∅),
            kv.1 = t.1 ∧ entryFor (fun _ p => (p == 22, "")) t.1 t.2 ∈ kv.2) :=
  ⟨List.Perm.refl _,
    C5_open_only_retention (fun _ p => (p == 22, "")) ["h"] [22, 80] ∅ _ (List.Perm.refl _)⟩

/-- C10: in open-only mode filtering happens at collection time — at
every prefix of the completion order the collected state holds no
closed-state entry — so the returned report contains only open entries,
and the JSON rendering, which serializes the stored report directly,
exposes only open entries as well. -/
theorem C10_json_only_open_entries
    (probeFn : String → Int → Bool × String) (ips : List String) (ports : List Int)
    (exclude : Finset Int) (order : List (String × Int)) :
    (∀ k, ∀ kv ∈ run_scan_collect probeFn true ips (order.take k),
        ∀ e ∈ kv.2, e.state = "open")
    ∧ (∀ kv ∈ run_scan probeFn ips ports true exclude order,
        ∀ e ∈ kv.2, e.state = "open")
    ∧ ∀ kv ∈ jsonRender (run_scan probeFn ips ports true exclude order),
        kv ∈ run_scan probeFn ips ports true exclude order ∧
          ∀ e ∈ kv.2, e.state = "open" := by
  refine ⟨fun k => collect_open_only probeFn ips (order.take k), ?_, ?_⟩
  · intro kv hkv
    exact collect_open_only probeFn ips order kv (run_scan_mem_collect hkv)
  · intro kv hkv
    have hmem : kv ∈ run_scan probeFn ips ports true exclude order :=
      (List.perm_insertionSort keyLE _).mem_iff.1 hkv
    exact ⟨hmem, collect_open_only probeFn ips order kv (run_scan_mem_collect hmem)⟩

/-- Witness for C10 at a concrete scan with one open and one closed
port. -/
theorem C10_json_only_open_entries_witness :
    (∀ k, ∀ kv ∈ run_scan_collect (fun _ p => (p == 22, "")) true ["h"]
        ((run_scan_tasks ["h"] [22, 80] ∅).take k),
      ∀ e ∈ kv.2, e.state = "open")
    ∧ (∀ kv ∈ run_scan (fun _ p => (p == 22, "")) ["h"] [22, 80] true ∅
          (run_scan_tasks ["h"] [22, 80] ∅),
        ∀ e ∈ kv.2, e.state = "open")
    ∧ ∀ kv ∈ jsonRender (run_scan (fun _ p => (p == 22, "")) ["h"] [22, 80] true ∅
          (run_scan_tasks ["h"] [22, 80] ∅)),
        kv ∈ run_scan (fun _ p => (p == 22, "")) ["h"] [22, 80] true ∅
            (run_scan_tasks ["h"] [22, 80] ∅) ∧
          ∀ e ∈ kv.2, e.state = "open" :=
  C10_json_only_open_entries (fun _ p => (p == 22, "")) ["h"] [22, 80] ∅
    (run_scan_tasks ["h"] [22, 80] ∅)

/-! ## Claim theorems about rendering order -/

instance : IsTotal (String × List Entry) keyLE := ⟨fun a b => le_total a.1 b.1⟩

instance : IsTrans (String × List Entry) keyLE := ⟨fun _ _ _ h h' => le_trans h h'⟩

lemma sorted_pySortByPort (l : List Entry) : List.Sorted portLE (pySortByPort l) :=
  List.sorted_insertionSort portLE l

/-- The probe oracle of the C4 counterexample: every port accepts. -/
def allOpenProbe : String → Int → Bool × String := fun _ _ => (true, "")

/-- Counterexample to C4 as stated: with ports `[22, 80]` on one host and
the two probes completing in the order 80-then-22 (a permutation of the
submitted tasks), the report stores the entries in completion order and
the JSON rendering exposes the per-host port sequence `[80, 22]`, which
is not ascending.  (The pretty/CSV/NDJSON renderers sort, but the JSON
path serializes the stored lists directly.) -/
theorem C4_counterexample :
    ([(("h" : String), (80 : Int)), ("h", 22)]).Perm (run_scan_tasks ["h"] [22, 80] ∅)
    ∧ (run_scan allOpenProbe ["h"] [22, 80] false ∅ [("h", 80), ("h", 22)]).map
        (fun kv => kv.2.map Entry.port) = [[80, 22]]
    ∧ (jsonRender (run_scan allOpenProbe ["h"] [22, 80] false ∅
          [("h", 80), ("h", 22)])).map (fun kv => kv.2.map Entry.port) = [[80, 22]]
    ∧ ¬ List.Sorted (· ≤ ·) [(80 : Int), 22] := by
  refine ⟨by decide, by decide, by decide, ?_⟩
  intro h
  have := List.rel_of_sorted_cons h 22 (List.mem_singleton.2 rfl)
  omega

/-- C4 amended: the pretty, CSV and NDJSON renderers each sort a host's
retained entries by ascending port before emitting them, so those three
rendered per-host sequences are in ascending port order regardless of
completion order; the JSON rendering sorts only the host keys and
serializes each host's entry list exactly as stored in the report. -/
theorem C4_renderer_sorting (results : List (String × List Entry)) (open_only : Bool) :
    (∀ blk ∈ print_pretty results open_only, List.Sorted portLE blk.2)
    ∧ (∀ kv ∈ results, List.Sorted portLE ((csvHostRows open_only kv).map Prod.snd))
    ∧ (∀ kv ∈ results, List.Sorted portLE ((ndjsonHostRows open_only kv).map Prod.snd))
    ∧ (jsonRender results).Perm results
    ∧ ∀ kv ∈ jsonRender results, kv ∈ results := by
  refine ⟨?_, ?_, ?_, List.perm_insertionSort keyLE results, ?_⟩
  · intro blk hblk
    rcases List.mem_filterMap.1 hblk with ⟨kv, _, hsome⟩
    simp only at hsome
    by_cases hoo : open_only = true
    · rw [hoo] at hsome
      simp only [if_true] at hsome
      by_cases hemp : ((pySortByPort kv.2).filter (fun e => e.state == "open")).isEmpty
      · rw [if_pos hemp] at hsome; cases hsome
      · rw [if_neg hemp] at hsome
        have : blk.2 = (pySortByPort kv.2).filter (fun e => e.state == "open") := by
          rw [← Option.some_inj.1 hsome]
        rw [this]
        exact List.Sorted.filter _ (sorted_pySortByPort kv.2)
    · rw [Bool.not_eq_true] at hoo
      rw [hoo] at hsome
      simp only [Bool.false_eq_true, if_false] at hsome
      have : blk.2 = pySortByPort kv.2 := by rw [← Option.some_inj.1 hsome]
      rw [this]
      exact sorted_pySortByPort kv.2
  · intro kv _
    unfold csvHostRows
    rw [List.map_map]
    have h1 : (Prod.snd ∘ fun e : Entry => (kv.1, e)) = id := rfl
    rw [h1, List.map_id]
    exact List.Sorted.filter _ (sorted_pySortByPort kv.2)
  · intro kv _
    unfold ndjsonHostRows
    rw [List.map_map]
    have h1 : (Prod.snd ∘ fun e : Entry => (kv.1, e)) = id := rfl
    rw [h1, List.map_id]
    exact List.Sorted.filter _ (sorted_pySortByPort kv.2)
  · intro kv hkv
    exact (List.perm_insertionSort keyLE results).mem_iff.1 hkv

/-- Witness for C4's amended statement at the counterexample report. -/
theorem C4_renderer_sorting_witness :
    (∀ blk ∈ print_pretty [("h", [⟨80, "open", ""⟩, ⟨22, "open", ""⟩])] false,
        List.Sorted portLE blk.2)
    ∧ (∀ kv ∈ [(("h" : String), [(⟨80, "open", ""⟩ : Entry), ⟨22, "open", ""⟩])],
        List.Sorted portLE ((csvHostRows false kv).map Prod.snd))
    ∧ (∀ kv ∈ [(("h" : String), [(⟨80, "open", ""⟩ : Entry), ⟨22, "open", ""⟩])],
        List.Sorted portLE ((ndjsonHostRows false kv).map Prod.snd))
    ∧ (jsonRender [("h", [⟨80, "open", ""⟩, ⟨22, "open", ""⟩])]).Perm
        [("h", [⟨80, "open", ""⟩, ⟨22, "open", ""⟩])]
    ∧ ∀ kv ∈ jsonRender [("h", [⟨80, "open", ""⟩, ⟨22, "open", ""⟩])],
        kv ∈ [(("h" : String), [(⟨80, "open", ""⟩ : Entry), ⟨22, "open", ""⟩])] :=
  C4_renderer_sorting [("h", [⟨80, "open", ""⟩, ⟨22, "open", ""⟩])] false

/-! ## Claim theorems about the `main` control flow (C2, C3) -/

/-- A scan with no completed task reports nothing: every host's list is
still empty and is dropped by the final filter. -/
lemma run_scan_nil (probeFn : String → Int → Bool × String) (ips : List String)
    (ports : List Int) (open_only : Bool) (exclude : Finset Int) :
    run_scan probeFn ips ports open_only exclude [] = [] := by
  unfold run_scan run_scan_collect
  rw [List.foldl_nil]
  rw [List.filter_eq_nil_iff]
  intro kv hkv
  rcases List.mem_map.1 hkv with ⟨ip, _, hkv⟩
  rw [← hkv]
  simp

/-- An empty working port list yields an empty task list. -/
lemma run_scan_tasks_of_ports_nil {ips : List String} {ports : List Int}
    {exclude : Finset Int} (h : run_scan_ports ports exclude = []) :
    run_scan_tasks ips ports exclude = [] := by
  unfold run_scan_tasks
  rw [h]
  simp

/-- Counterexample to C2 as stated: with port specification `"80"` and
exclusion `"80"` the working port list after exclusion is empty, yet
`main` performs no probing and exits with code 0 and an empty report —
not with the fatal input error code 2.  (The `if not ports` check at line
196 runs on the parsed list *before* exclusion.) -/
theorem C2_counterexample :
    parse_ports "80" = some [80]
    ∧ parse_exclude (some "80") = some ({80} : Finset Int)
    ∧ run_scan_ports [80] {80} = []
    ∧ run_scan_tasks ["192.168.0.1"] [80] {80} = []
    ∧ main ["192.168.0.1"] "80" (some "80") (fun _ => .ok []) (fun _ _ => (true, ""))
        true [] = .exited 0 (some [])
    ∧ main ["192.168.0.1"] "80" (some "80") (fun _ => .ok []) (fun _ _ => (true, ""))
        true [] ≠ .exited 2 none := by
  refine ⟨by decide, by decide, by decide, by decide, by decide, by decide⟩

/-- C2 amended: an *empty parsed port list* is the fatal input error that
exits with code 2 before any probing; when the port list becomes empty
only after subtracting the exclusion set, the program still performs no
probing (the task list is empty) but terminates successfully with exit
code 0 and an empty report. -/
theorem C2_exclusion_empties_ports
    (targets : List String) (ps : String) (xs : Option String) (resolver : Resolver)
    (probeFn : String → Int → Bool × String) (open_only : Bool)
    (order : List (String × Int)) (tokens ips : List String) (ports : List Int)
    (exclude : Finset Int)
    (h1 : expand_targets targets = some tokens)
    (h2 : parse_ports ps = some ports)
    (h7 : ports ≠ [])
    (h3 : parse_exclude xs = some exclude)
    (h4 : materialize_ips resolver tokens = .ok ips)
    (h5 : ips ≠ [])
    (h6 : run_scan_ports ports exclude = [])
    (hord : order.Perm (run_scan_tasks ips ports exclude)) :
    (∀ ps2, parse_ports ps2 = some [] →
        main targets ps2 xs resolver probeFn open_only order = .exited 2 none)
    ∧ run_scan_tasks ips ports exclude = []
    ∧ main targets ps xs resolver probeFn open_only order = .exited 0 (some []) := by
  have htasks : run_scan_tasks ips ports exclude = [] := run_scan_tasks_of_ports_nil h6
  refine ⟨?_, htasks, ?_⟩
  · intro ps2 hps2
    simp [main, h1, hps2]
  · have horder : order = [] := (htasks ▸ hord).eq_nil
    simp only [main, h1, h2, if_neg h7, h3, h4, if_neg h5, horder, run_scan_nil]

/-- Witness for C2's amended statement at the counterexample inputs. -/
theorem C2_exclusion_empties_ports_witness :
    (expand_targets ["192.168.0.1"] = some ["192.168.0.1"]
      ∧ parse_ports "80" = some [80]
      ∧ ([(80 : Int)] ≠ [])
      ∧ parse_exclude (some "80") = some ({80} : Finset Int)
      ∧ materialize_ips (fun _ => .ok []) ["192.168.0.1"] = .ok ["192.168.0.1"]
      ∧ (["192.168.0.1"] ≠ [])
      ∧ run_scan_ports [80] {80} = []
      ∧ ([] : List (String × Int)).Perm (run_scan_tasks ["192.168.0.1"] [80] {80}))
    ∧ ((∀ ps2, parse_ports ps2 = some [] →
          main ["192.168.0.1"] ps2 (some "80") (fun _ => .ok []) (fun _ _ => (true, ""))
            true [] = .exited 2 none)
      ∧ run_scan_tasks ["192.168.0.1"] [80] {80} = []
      ∧ main ["192.168.0.1"] "80" (some "80") (fun _ => .ok []) (fun _ _ => (true, ""))
          true [] = .exited 0 (some [])) :=
  ⟨⟨by decide, by decide, by decide, by decide, by decide, by decide, by decide, by decide⟩,
    C2_exclusion_empties_ports ["192.168.0.1"] "80" (some "80") (fun _ => .ok [])
      (fun _ _ => (true, "")) true [] ["192.168.0.1"] ["192.168.0.1"] [80] {80}
      (by decide) (by decide) (by decide) (by decide) (by decide) (by decide)
      (by decide) (by decide)⟩

/-- A successful batch requires every token to have been processed
successfully: the sequential loop propagates the first failure. -/
lemma materializeLists_ok_forall {resolver : Resolver} :
    ∀ {toks : List String} {lists : List (List String)},
      materializeLists resolver toks = .ok lists →
      ∀ tok ∈ toks, ∃ l, materializeToken resolver tok = .ok l := by
  intro toks
  induction toks with
  | nil => intro lists _ tok htok; cases htok
  | cons t rest ih =>
    intro lists h tok htok
    unfold materializeLists at h
    cases hm : materializeToken resolver t with
    | error e => rw [hm] at h; cases h
    | ok l =>
      rw [hm] at h
      cases hr : materializeLists resolver rest with
      | error e => rw [hr] at h; cases h
      | ok ls =>
        rcases List.mem_cons.1 htok with rfl | htok
        · exact ⟨l, hm⟩
        · exact ih hr tok htok

/-- If the whole batch succeeded, every non-literal token's resolver call
succeeded — a resolution failure is never absorbed. -/
lemma materialize_ips_ok_forall {resolver : Resolver} {toks : List String}
    {out : List String} (h : materialize_ips resolver toks = .ok out) :
    ∀ tok ∈ toks, is_ip tok = false → ∃ l, resolver tok = .ok l := by
  intro tok htok hip
  unfold materialize_ips at h
  cases hm : materializeLists resolver toks with
  | error e => rw [hm] at h; cases h
  | ok lists =>
    rcases materializeLists_ok_forall hm tok htok with ⟨l, hl⟩
    unfold materializeToken at hl
    rw [if_neg (by simp [hip])] at hl
    unfold resolve_target at hl
    rw [if_neg (by simp [hip])] at hl
    cases hr : resolver tok with
    | error e => rw [hr] at hl; cases hl
    | ok l2 => exact ⟨l2, rfl⟩

/-- The resolver of the C3 counterexample: `b.example` resolves to one
address, any other hostname raises `gaierror`. -/
def cexResolver : Resolver :=
  fun t => if t = "b.example" then .ok ["10.0.0.2"] else .error ()

/-- Counterexample to C3 as stated: with tokens `["a.example",
"b.example"]` where only the second resolves, the claim predicts the
batch tolerates the failure and yields `["10.0.0.2"]`; instead
`materialize_ips` propagates the error and `main` ends in an uncaught
exception (its second `try` catches `KeyboardInterrupt` only), not in the
exit-2 input-error path. -/
theorem C3_counterexample :
    is_ip "a.example" = false
    ∧ cexResolver "a.example" = .error ()
    ∧ cexResolver "b.example" = .ok ["10.0.0.2"]
    ∧ materialize_ips cexResolver ["a.example", "b.example"] = .error ()
    ∧ materialize_ips cexResolver ["a.example", "b.example"] ≠ .ok ["10.0.0.2"]
    ∧ main ["a.example", "b.example"] "80" none cexResolver (fun _ _ => (true, ""))
        true [] = .uncaught
    ∧ main ["a.example", "b.example"] "80" none cexResolver (fun _ _ => (true, ""))
        true [] ≠ .exited 2 none := by
  refine ⟨by decide, by decide, by decide, by decide, by decide, by decide, by decide⟩

/-- C3 amended: a name-resolution failure on a hostname token is *not*
tolerated — the batch succeeds only if every hostname token resolves, and
when any resolution raises, the error escapes `main` as an uncaught
exception instead of an exit code; the exit-2 empty-host error arises
only when every token is processed without error and the combined address
list is empty. -/
theorem C3_resolution_failure_propagates :
    (∀ (resolver : Resolver) (toks : List String) (out : List String),
        materialize_ips resolver toks = .ok out →
        ∀ tok ∈ toks, is_ip tok = false → ∃ l, resolver tok = .ok l)
    ∧ (∀ (targets : List String) (ps : String) (xs : Option String) (resolver : Resolver)
        (probeFn : String → Int → Bool × String) (open_only : Bool)
        (order : List (String × Int)) (tokens : List String) (ports : List Int)
        (exclude : Finset Int),
        expand_targets targets = some tokens → parse_ports ps = some ports →
        ports ≠ [] → parse_exclude xs = some exclude →
        materialize_ips resolver tokens = .error () →
        main targets ps xs resolver probeFn open_only order = .uncaught)
    ∧ (∀ (targets : List String) (ps : String) (xs : Option String) (resolver : Resolver)
        (probeFn : String → Int → Bool × String) (open_only : Bool)
        (order : List (String × Int)) (tokens : List String) (ports : List Int)
        (exclude : Finset Int),
        expand_targets targets = some tokens → parse_ports ps = some ports →
        ports ≠ [] → parse_exclude xs = some exclude →
        materialize_ips resolver tokens = .ok [] →
        main targets ps xs resolver probeFn open_only order = .exited 2 none) := by
  refine ⟨fun resolver toks out h => materialize_ips_ok_forall h, ?_, ?_⟩
  · intro targets ps xs resolver probeFn open_only order tokens ports exclude
      h1 h2 h7 h3 h4
    simp only [main, h1, h2, if_neg h7, h3, h4]
  · intro targets ps xs resolver probeFn open_only order tokens ports exclude
      h1 h2 h7 h3 h4
    simp [main, h1, h2, if_neg h7, h3, h4]

/-- Witness for C3's amended statement at the counterexample inputs. -/
theorem C3_resolution_failure_propagates_witness :
    (materialize_ips cexResolver ["b.example"] = .ok ["10.0.0.2"]
      ∧ is_ip "b.example" = false
      ∧ (∃ l, cexResolver "b.example" = .ok l))
    ∧ (expand_targets ["a.example"] = some ["a.example"]
      ∧ parse_ports "80" = some [80]
      ∧ parse_exclude none = some (∅ : Finset Int)
      ∧ materialize_ips cexResolver ["a.example"] = .error ()
      ∧ main ["a.example"] "80" none cexResolver (fun _ _ => (true, "")) true []
          = .uncaught) :=
  ⟨⟨by decide, by decide,
      C3_resolution_failure_propagates.1 cexResolver ["b.example"] ["10.0.0.2"]
        (by decide) "b.example" (by decide) (by decide)⟩,
    ⟨by decide, by decide, by decide, by decide,
      C3_resolution_failure_propagates.2.1 ["a.example"] "80" none cexResolver
        (fun _ _ => (true, "")) true [] ["a.example"] [80] ∅
        (by decide) (by decide) (by decide) (by decide) (by decide)⟩⟩

/-! ## Claim theorems about the Port Set Builder and Target Resolver -/

/-- C6: for a non-alias specification, `parse_ports` splits on commas,
expands each segment (with `low-high` bounds swapped when `low > high`),
de-duplicates, silently drops values outside [1, 65535], and returns the
rest in ascending order; in particular
`parse_ports "5-7,7-9,22" = [5,6,7,8,9,22]`, the reversed range `"9-5"`
expands to `[5,...,9]`, and out-of-range values `0` and `70000` are
dropped. -/
theorem C6_parse_ports_spec :
    (∀ (s : String) (l : List Int), pyLower s ≠ "common" → parse_ports s = some l →
        List.Sorted (· ≤ ·) l ∧ l.Nodup ∧ ∀ p ∈ l, 1 ≤ p ∧ p ≤ 65535)
    ∧ parse_ports "5-7,7-9,22" = some [5, 6, 7, 8, 9, 22]
    ∧ parse_ports "9-5" = some [5, 6, 7, 8, 9]
    ∧ parse_ports "0,70000,80" = some [80] := by
  refine ⟨?_, by decide, by decide, by decide⟩
  intro s l halias h
  unfold parse_ports at h
  rw [if_neg halias] at h
  rcases Option.bind_eq_some.1 h with ⟨sets, _, hl⟩
  have hl' : l = List.insertionSort (· ≤ ·)
      (dedupFirstSeen (sets.flatten.filter (fun p => 1 ≤ p ∧ p ≤ 65535))) :=
    (Option.some_inj.1 hl).symm
  subst hl'
  refine ⟨List.sorted_insertionSort _ _, ?_, ?_⟩
  · exact (List.perm_insertionSort _ _).nodup_iff.2 (dedupFirstSeen_nodup _)
  · intro p hp
    have hp1 : p ∈ dedupFirstSeen (sets.flatten.filter (fun p => 1 ≤ p ∧ p ≤ 65535)) :=
      (List.perm_insertionSort _ _).mem_iff.1 hp
    have hp2 := List.mem_filter.1 (mem_dedupFirstSeen.1 hp1)
    simpa using hp2.2

/-- Witness for C6's general clause at the worked example. -/
theorem C6_parse_ports_spec_witness :
    (pyLower "5-7,7-9,22" ≠ "common" ∧ parse_ports "5-7,7-9,22" = some [5, 6, 7, 8, 9, 22])
    ∧ (List.Sorted (· ≤ ·) [(5 : Int), 6, 7, 8, 9, 22]
      ∧ ([(5 : Int), 6, 7, 8, 9, 22]).Nodup
      ∧ ∀ p ∈ [(5 : Int), 6, 7, 8, 9, 22], 1 ≤ p ∧ p ≤ 65535) :=
  ⟨⟨by decide, by decide⟩,
    C6_parse_ports_spec.1 "5-7,7-9,22" [5, 6, 7, 8, 9, 22] (by decide) (by decide)⟩

/-- C7: the full target expansion — CIDR hosts, literal IPs, and
hostname-resolved addresses alike — is de-duplicated preserving the order
in which addresses were first produced: both `expand_targets` and
`materialize_ips` return exactly the first occurrence of each produced
token, in production order (`keepFirsts`), a duplicate-free sublist of
the production stream with the same members.  In particular
`expand_targets ["192.168.0.0/30", "192.168.0.1"]` produces
`"192.168.0.1"` (via the CIDR) before `"192.168.0.2"`, keeps it exactly
once, and drops the later literal duplicate. -/
theorem C7_expansion_dedup_first_seen :
    (∀ (targets : List String) (lists : List (List String)),
        expandLists targets = some lists →
        expand_targets targets = some (keepFirsts lists.flatten)
          ∧ (keepFirsts lists.flatten).Nodup
          ∧ List.Sublist (keepFirsts lists.flatten) lists.flatten
          ∧ ∀ a, a ∈ keepFirsts lists.flatten ↔ a ∈ lists.flatten)
    ∧ (∀ (resolver : Resolver) (toks : List String) (lists : List (List String)),
        materializeLists resolver toks = .ok lists →
        materialize_ips resolver toks = .ok (keepFirsts lists.flatten)
          ∧ (keepFirsts lists.flatten).Nodup
          ∧ List.Sublist (keepFirsts lists.flatten) lists.flatten
          ∧ ∀ a, a ∈ keepFirsts lists.flatten ↔ a ∈ lists.flatten)
    ∧ expandLists ["192.168.0.0/30", "192.168.0.1"]
        = some [["192.168.0.1", "192.168.0.2"], ["192.168.0.1"]]
    ∧ expand_targets ["192.168.0.0/30", "192.168.0.1"]
        = some ["192.168.0.1", "192.168.0.2"]
    ∧ (["192.168.0.1", "192.168.0.2"].count "192.168.0.1" = 1) := by
  refine ⟨?_, ?_, by decide, by decide, by decide⟩
  · intro targets lists h
    refine ⟨?_, keepFirsts_nodup _, keepFirsts_sublist _, fun a => mem_keepFirsts⟩
    unfold expand_targets
    rw [h]
    simp [dedupFirstSeen_eq_keepFirsts]
  · intro resolver toks lists h
    refine ⟨?_, keepFirsts_nodup _, keepFirsts_sublist _, fun a => mem_keepFirsts⟩
    unfold materialize_ips
    rw [h]
    simp [Except.map, dedupFirstSeen_eq_keepFirsts]

/-- Witness for C7's general clauses at the worked example. -/
theorem C7_expansion_dedup_first_seen_witness :
    (expandLists ["192.168.0.0/30", "192.168.0.1"]
        = some [["192.168.0.1", "192.168.0.2"], ["192.168.0.1"]]
      ∧ materializeLists cexResolver ["b.example", "10.0.0.2"]
        = .ok [["10.0.0.2"], ["10.0.0.2"]])
    ∧ (expand_targets ["192.168.0.0/30", "192.168.0.1"]
        = some (keepFirsts [["192.168.0.1", "192.168.0.2"], ["192.168.0.1"]].flatten)
      ∧ (keepFirsts [["192.168.0.1", "192.168.0.2"], ["192.168.0.1"]].flatten).Nodup)
    ∧ (materialize_ips cexResolver ["b.example", "10.0.0.2"]
        = .ok (keepFirsts [["10.0.0.2"], ["10.0.0.2"]].flatten)) :=
  ⟨⟨by decide, by decide⟩,
    ⟨(C7_expansion_dedup_first_seen.1 ["192.168.0.0/30", "192.168.0.1"]
        [["192.168.0.1", "192.168.0.2"], ["192.168.0.1"]] (by decide)).1,
      (C7_expansion_dedup_first_seen.1 ["192.168.0.0/30", "192.168.0.1"]
        [["192.168.0.1", "192.168.0.2"], ["192.168.0.1"]] (by decide)).2.1⟩,
    (C7_expansion_dedup_first_seen.2.1 cexResolver ["b.example", "10.0.0.2"]
        [["10.0.0.2"], ["10.0.0.2"]] (by decide)).1⟩

/-! ## Claim theorems about the Banner Prober (C8) -/

lemma pyStrip_length_le (s : List Char) : (pyStrip s).length ≤ s.length := by
  unfold pyStrip
  rw [List.length_reverse]
  calc (List.dropWhile Char.isWhitespace
          ((List.dropWhile Char.isWhitespace s).reverse)).length
      ≤ ((List.dropWhile Char.isWhitespace s).reverse).length :=
        (List.dropWhile_sublist _).length_le
    _ = (List.dropWhile Char.isWhitespace s).length := List.length_reverse _
    _ ≤ s.length := (List.dropWhile_sublist _).length_le

lemma decodeIgnore_length_le (bytes : List Nat) :
    (decodeIgnore bytes).length ≤ bytes.length :=
  List.length_filterMap_le _ _

/-- C8: when banner capture is enabled on an open connection, the read is
limited to 128 bytes of the peer's stream under the sub-timeout
`min(0.6, timeout)`; any failure of the banner sequence yields the empty
banner while the probe result keeps state open; and the captured banner
never exceeds 128 characters. -/
theorem C8_banner_capture (env : ProbeEnv) (timeout : ℚ)
    (hconn : env.connectOk = true) :
    (probe env timeout true).1 = true
    ∧ (∀ bs, bannerRead env timeout = some bs →
        bs = env.stream.take 128 ∧ bs.length ≤ 128)
    ∧ (env.writeOk = false ∨ min (6/10 : ℚ) timeout < env.readyAt →
        bannerRead env timeout = none)
    ∧ (bannerRead env timeout = none → probe env timeout true = (true, ""))
    ∧ (probe env timeout true).2.length ≤ 128 := by
  refine ⟨?_, ?_, ?_, ?_, ?_⟩
  · unfold probe
    rw [if_pos hconn]
  · intro bs hbs
    unfold bannerRead at hbs
    by_cases hw : env.writeOk = true
    · rw [if_pos hw] at hbs
      by_cases ht : env.readyAt ≤ min (6/10 : ℚ) timeout
      · rw [if_pos ht] at hbs
        have : bs = env.stream.take 128 := (Option.some_inj.1 hbs).symm
        exact ⟨this, this ▸ List.length_take_le _ _⟩
      · rw [if_neg ht] at hbs; cases hbs
    · rw [if_neg hw] at hbs; cases hbs
  · intro hfail
    unfold bannerRead
    rcases hfail with hw | ht
    · rw [if_neg (by simp [hw])]
    · by_cases hw : env.writeOk = true
      · rw [if_pos hw, if_neg (by exact fun hle => absurd hle (not_le.2 ht))]
      · rw [if_neg hw]
  · intro hnone
    unfold probe
    rw [if_pos hconn, if_pos rfl, hnone]
  · unfold probe
    rw [if_pos hconn, if_pos rfl]
    cases hbr : bannerRead env timeout with
    | none => simp [String.length]
    | some bs =>
      have h1 : bs = env.stream.take 128 := by
        unfold bannerRead at hbr
        by_cases hw : env.writeOk = true
        · rw [if_pos hw] at hbr
          by_cases ht : env.readyAt ≤ min (6/10 : ℚ) timeout
          · rw [if_pos ht] at hbr
            exact (Option.some_inj.1 hbr).symm
          · rw [if_neg ht] at hbr; cases hbr
        · rw [if_neg hw] at hbr; cases hbr
      show (String.mk (pyStrip (decodeIgnore bs))).length ≤ 128
      have h2 : (String.mk (pyStrip (decodeIgnore bs))).length
          = (pyStrip (decodeIgnore bs)).length := rfl
      rw [h2]
      calc (pyStrip (decodeIgnore bs)).length
          ≤ (decodeIgnore bs).length := pyStrip_length_le _
        _ ≤ bs.length := decodeIgnore_length_le _
        _ ≤ 128 := h1 ▸ List.length_take_le _ _

/-- Witness for C8 at a concrete environment: open connection, banner
`"Hi"` ready after half a second, connect timeout 1.2 s. -/
theorem C8_banner_capture_witness :
    ((⟨true, true, 1/2, [72, 105]⟩ : ProbeEnv).connectOk = true)
    ∧ ((probe ⟨true, true, 1/2, [72, 105]⟩ (12/10) true).1 = true
      ∧ (∀ bs, bannerRead ⟨true, true, 1/2, [72, 105]⟩ (12/10) = some bs →
          bs = ([72, 105] : List Nat).take 128 ∧ bs.length ≤ 128)
      ∧ ((⟨true, true, 1/2, [72, 105]⟩ : ProbeEnv).writeOk = false ∨
            min (6/10 : ℚ) (12/10) < (1/2 : ℚ) →
          bannerRead ⟨true, true, 1/2, [72, 105]⟩ (12/10) = none)
      ∧ (bannerRead ⟨true, true, 1/2, [72, 105]⟩ (12/10) = none →
          probe ⟨true, true, 1/2, [72, 105]⟩ (12/10) true = (true, ""))
      ∧ (probe ⟨true, true, 1/2, [72, 105]⟩ (12/10) true).2.length ≤ 128) :=
  ⟨rfl, C8_banner_capture ⟨true, true, 1/2, [72, 105]⟩ (12/10) rfl⟩

/-! ## Claim theorem about the concurrency gate (C9) -/

lemma countP_set_add {α : Type} (p : α → Bool) :
    ∀ (l : List α) (i : Nat) (a b : α), l.get? i = some a →
      (l.set i b).countP p + (if p a then 1 else 0)
        = l.countP p + (if p b then 1 else 0) := by
  intro l
  induction l with
  | nil => intro i a b h; cases h
  | cons x xs ih =>
    intro i a b h
    cases i with
    | zero =>
      have hx : x = a := by simpa using h
      subst hx
      simp only [List.set, List.countP_cons]
      omega
    | succ n =>
      have h' : xs.get? n = some a := by simpa using h
      simp only [List.set, List.countP_cons]
      have := ih n a b h'
      omega

/-- One scheduler transition preserves the semaphore invariant. -/
lemma sched_step_invariant {cap : Nat} {s s' : SchedState} (hstep : SchedStep s s')
    (ih : activeCount s + s.permits = cap) : activeCount s' + s'.permits = cap := by
  cases hstep with
  | acquire i hget hpos =>
    have hcount := countP_set_add (fun ph => ph == TaskPhase.active) s.phases i
      TaskPhase.pending TaskPhase.active hget
    simp only [activeCount] at ih ⊢
    simp only [show ((TaskPhase.pending == TaskPhase.active) = false) from rfl,
      show ((TaskPhase.active == TaskPhase.active) = true) from rfl] at hcount
    simp only [Bool.false_eq_true, if_false, if_true, Nat.add_zero] at hcount
    omega
  | release i hget =>
    have hcount := countP_set_add (fun ph => ph == TaskPhase.active) s.phases i
      TaskPhase.active TaskPhase.finished hget
    simp only [activeCount] at ih ⊢
    simp only [show ((TaskPhase.finished == TaskPhase.active) = false) from rfl,
      show ((TaskPhase.active == TaskPhase.active) = true) from rfl] at hcount
    simp only [Bool.false_eq_true, if_false, if_true, Nat.add_zero] at hcount
    omega

/-- The semaphore invariant: free permits plus in-flight probes always
total the gate capacity. -/
lemma sched_invariant {numTasks cap : Nat} {s : SchedState}
    (h : SchedReachable numTasks cap s) : activeCount s + s.permits = cap := by
  induction h with
  | init => simp [initSched, activeCount, List.countP_replicate]
  | step _ hstep ih => exact sched_step_invariant hstep ih

/-- C9: in every state the scan's probe scheduler can reach, the number
of simultaneously active connection attempts never exceeds the configured
gate capacity: a probe runs only between acquiring and releasing one of
the `cap` permits of the semaphore (`async with sem`, default capacity
1024). -/
theorem C9_concurrency_bounded (ips : List String) (ports : List Int)
    (exclude : Finset Int) (cap : Nat) (s : SchedState)
    (h : SchedReachable (run_scan_tasks ips ports exclude).length cap s) :
    activeCount s ≤ cap := by
  have := sched_invariant h
  omega

/-- Witness for C9: one submitted task that has acquired a permit under
the default capacity 1024. -/
theorem C9_concurrency_bounded_witness :
    SchedReachable (run_scan_tasks ["h"] [22] ∅).length 1024
        ⟨[TaskPhase.active], 1023⟩
    ∧ activeCount ⟨[TaskPhase.active], 1023⟩ ≤ 1024 := by
  have hreach : SchedReachable (run_scan_tasks ["h"] [22] ∅).length 1024
      ⟨[TaskPhase.active], 1023⟩ := by
    have hstep := SchedStep.acquire (initSched (run_scan_tasks ["h"] [22] ∅).length 1024)
      0 (by decide) (by decide)
    exact SchedReachable.step SchedReachable.init hstep
  exact ⟨hreach, C9_concurrency_bounded ["h"] [22] ∅ 1024 _ hreach⟩

end Quickscope
